import Mathlib

/-!
Verification development for the edge cloud storage service
(`services/storage-service`).  The definitions below are shallow
embeddings of the Python source: pure functions become Lean functions,
stateful handlers become explicit state-passing functions, machine
integers become `Nat`/`Int` with explicit `% 2^32` where the source
reduces modulo `2**32`, and fallible handlers return `Except`.
Cryptographic primitives (SHA-256, PBKDF2, AES-GCM) and the compressor
are modelled as components of an explicit `CryptoEnv` record, since the
source calls them as opaque library routines.
-/

/-- Bytes are modelled as lists of naturals (each intended to be < 256). -/
abbrev Bytes := List Nat

/-- Association-list read: models `dict[key]` / Redis `get` / keyed DB lookup.
Returns the first binding of the key. -/
def assoc_get {κ α : Type} [DecidableEq κ] : List (κ × α) → κ → Option α
  | [], _ => none
  | (k, v) :: t, k2 => if k = k2 then some v else assoc_get t k2

/-- Association-list write: models `dict[key] = value`. -/
def assoc_set {κ α : Type} [DecidableEq κ] (l : List (κ × α)) (k : κ) (v : α) :
    List (κ × α) :=
  l.filter (fun p => p.1 ≠ k) ++ [(k, v)]

/-- Lower-case hex digit for a value below 16, as produced by Python's
`hexdigest`. -/
def hexChar (n : Nat) : Char :=
  if n < 10 then Char.ofNat (48 + n) else Char.ofNat (87 + n)

/-- Two hex digits of one byte. -/
def byteToHex (b : Nat) : List Char := [hexChar (b / 16), hexChar (b % 16)]

/-- Hex encoding of a byte string (Python `bytes.hex()` / `.hexdigest()`). -/
def hexEncode (bs : Bytes) : String := String.mk ((bs.map byteToHex).flatten)

/-- ASCII bytes of a string (Python `str.encode()`; all strings involved
are ASCII). -/
def strBytes (s : String) : Bytes := s.toList.map Char.toNat

/-- Decidable equality of `Except` results, used to evaluate witnesses. -/
instance exceptDecEq {ε α : Type} [DecidableEq ε] [DecidableEq α] :
    DecidableEq (Except ε α) := fun x y =>
  match x, y with
  | .ok a, .ok b =>
    if h : a = b then isTrue (by rw [h]) else isFalse (by simp [h])
  | .error a, .error b =>
    if h : a = b then isTrue (by rw [h]) else isFalse (by simp [h])
  | .ok _, .error _ => isFalse (by simp)
  | .error _, .ok _ => isFalse (by simp)

/-- An HTTP error as raised by `HTTPException(status, detail, headers)`;
`content_range` records the `Content-Range` response header when the
source attaches one. -/
structure HttpError where
  status : Nat
  detail : String
  content_range : Option String
deriving DecidableEq, Repr

/-- The cryptographic and compression primitives the service calls
(`hashlib`, `cryptography`, the compressor, `EncryptionService`).  They
are opaque library functions to the source, so the embedding abstracts
them as record fields; every theorem holds for an arbitrary environment. -/
structure CryptoEnv where
  sha256 : Bytes → Bytes
  pbkdf2_hmac_sha256 : Bytes → Bytes → Nat → Nat → Bytes
  aes_gcm_encrypt : Bytes → Bytes → Bytes → Bytes × Bytes
  encrypt_chunk : Bytes → Bytes → Nat → Bytes
  decrypt_chunk : Bytes → Bytes → Nat → Bytes
  encrypt_file : Bytes → Bytes → Bytes
  decrypt_file : Bytes → Bytes → Bytes
  decrypt_key : String → Bytes
  compress : Bytes → Bytes
  decompress : Bytes → Bytes

/-- A concrete environment used to instantiate witnesses on small inputs. -/
def trivEnv : CryptoEnv where
  sha256 := fun b => b
  pbkdf2_hmac_sha256 := fun pw _ _ _ => pw
  aes_gcm_encrypt := fun _ _ d => (d, [])
  encrypt_chunk := fun d _ _ => d
  decrypt_chunk := fun d _ _ => d
  encrypt_file := fun d _ => d
  decrypt_file := fun d _ => d
  decrypt_key := fun _ => []
  compress := fun d => d
  decompress := fun d => d

namespace EnhancedDeduplicationService

/-! Embedding of `app/services/deduplication_enhanced.py`
(`EnhancedDeduplicationService`). -/

/-- `self.min_block_size = 2 * 1024 * 1024` (line 30). -/
def min_block_size : Nat := 2 * 1024 * 1024

/-- `self.avg_block_size = 4 * 1024 * 1024` (line 31). -/
def avg_block_size : Nat := 4 * 1024 * 1024

/-- `self.max_block_size = 8 * 1024 * 1024` (line 32). -/
def max_block_size : Nat := 8 * 1024 * 1024

/-- `self.window_size = 48` (line 37). -/
def window_size : Nat := 48

/-- `self.prime = 3` (line 38). -/
def prime : Nat := 3

/-- `self.modulus = (1 << 13) - 1` (line 39). -/
def modulus : Nat := (1 <<< 13) - 1

/-- One rolling-hash update of `find_chunk_boundaries` (lines 74-79).
`data` is indexing into the byte string; the hash value is kept as an
integer reduced `% 2**32`, exactly as Python does (Python `%` returns a
non-negative representative). -/
def rolling_hash_step (data : Nat → Nat) (hash_val : Int) (i : Nat) : Int :=
  if window_size ≤ i then
    (hash_val * (prime : Int) + (data i : Int) -
        (data (i - window_size) : Int) * (prime : Int) ^ window_size) % ((2 : Int) ^ 32)
  else
    (hash_val * (prime : Int) + (data i : Int)) % ((2 : Int) ^ 32)

/-- The boundary-emission step of `find_chunk_boundaries` (lines 81-87):
at index `i ≥ min_block_size`, append `i + 1` when the masked hash hits
`modulus`, or else when `i - (boundaries[-1] if boundaries else 0)` is
at least `max_block_size`. -/
def boundary_step (hash_val : Int) (i : Nat) (boundaries : List Nat) : List Nat :=
  if min_block_size ≤ i then
    if hash_val.toNat &&& modulus = modulus then boundaries ++ [i + 1]
    else if (max_block_size : Int) ≤ (i : Int) - (boundaries.getLastD 0 : Int) then
      boundaries ++ [i + 1]
    else boundaries
  else boundaries

/-- State of the `for i in range(len(data))` loop of
`find_chunk_boundaries` after processing the first `n` indices:
the hash value and the boundary list. -/
def chunk_scan (data : Nat → Nat) : Nat → Int × List Nat
  | 0 => (0, [])
  | n + 1 =>
    let st := chunk_scan data n
    let hv := rolling_hash_step data st.1 n
    (hv, boundary_step hv n st.2)

/-- `find_chunk_boundaries` (lines 62-92): content-defined chunking via
a rolling hash; inputs shorter than `min_block_size` yield the single
boundary `[len(data)]`, and a final boundary is appended when the loop
did not already end exactly at the stream end. -/
def find_chunk_boundaries (data : List Nat) : List Nat :=
  if data.length < min_block_size then [data.length]
  else
    let boundaries := (chunk_scan (fun i => data.getD i 0) data.length).2
    if boundaries.getLast? = some data.length then boundaries
    else boundaries ++ [data.length]

/-- Successive differences of a boundary list, starting from `prev`:
the sizes of the blocks the boundaries delimit. -/
def gaps_from (prev : Nat) : List Nat → List Nat
  | [] => []
  | b :: bs => (b - prev) :: gaps_from b bs

/-- Block sizes induced by a boundary list (`block = data[start:boundary]`
in `deduplicate_before_encryption`, so sizes are the boundary gaps from 0). -/
def block_sizes (boundaries : List Nat) : List Nat := gaps_from 0 boundaries

/-- The block slices `data[start:boundary]` walked by
`deduplicate_before_encryption` (lines 115-117, 174). -/
def block_slices_from (data : Bytes) (start : Nat) : List Nat → List Bytes
  | [] => []
  | b :: bs => (data.drop start).take (b - start) :: block_slices_from data b bs

/-- All candidate blocks of a file, in order. -/
def block_slices (data : Bytes) : List Bytes :=
  block_slices_from data 0 (find_chunk_boundaries data)

/-- Modelled from the spec and the service's usage: the `ContentBlock` ORM
class is imported from `app/models/database.py` but is not declared in the
sources available; its columns (`id`, `block_hash`, `file_id`,
`block_size`, `block_offset`, `reference_count`, `created_at`) are taken
from the spec's Block entity and from every site that constructs or
queries it.  `id` is the primary key. -/
structure ContentBlock where
  id : Nat
  block_hash : String
  file_id : Nat
  block_size : Nat
  block_offset : Nat
  reference_count : Int
  created_at : Nat
deriving DecidableEq, Repr

/-- Projection of an `Object` row used by the deduplication service:
identity, owner, whole-file hash, creation time and the wrapped key. -/
structure ObjRow where
  id : Nat
  user_id : String
  content_hash : String
  encryption_key : Option String
  created_at : Nat
deriving DecidableEq, Repr

/-- The database and CAS state seen by `store_deduplicated_file`.
`objects` and `content_blocks` are kept in `created_at` order (the
service always orders its queries by `created_at ASC`); `cas` maps a
content path to the bytes on disk. -/
structure DedupDB where
  objects : List ObjRow
  content_blocks : List ContentBlock
  cas : List (String × Bytes)
deriving Repr

/-- `settings.CROSS_USER_DEDUP` defaults to `False` (line 34). -/
def enable_cross_user_dedup : Bool := false

/-- `self.cas_path` default (line 33). -/
def cas_path : String := "/app/storage/cas"

/-- `get_content_address` (lines 530-535): shard by the first two hex
characters. -/
def get_content_address (content_hash : String) : String :=
  cas_path ++ "/" ++ (content_hash.take 2) ++ "/" ++ content_hash

/-- `calculate_block_hash` (lines 54-56): SHA-256 hex digest. -/
def calculate_block_hash (env : CryptoEnv) (data : Bytes) : String :=
  hexEncode (env.sha256 data)

/-- `derive_key_from_content` (lines 188-198): PBKDF2-HMAC-SHA256 of the
raw SHA-256 digest of the block, fixed salt, 100000 iterations, 32-byte
key. -/
def convergent_salt : Bytes := strBytes "dedup_convergent_encryption_salt"

/-- Convergent key derivation from block content. -/
def derive_key_from_content (env : CryptoEnv) (data : Bytes) : Bytes :=
  env.pbkdf2_hmac_sha256 (env.sha256 data) convergent_salt 100000 32

/-- The deterministic nonce of a stored block (line 292):
`SHA-256(f"(hash)_nonce")[:12]` of the hex hash string. -/
def block_nonce (env : CryptoEnv) (block_hash : String) : Bytes :=
  (env.sha256 (strBytes (block_hash ++ "_nonce"))).take 12

/-- Bytes written to the CAS for a new block when `encrypt=True`
(lines 283-303): `nonce || gcm_tag || ciphertext` under the convergent
key and deterministic nonce. -/
def encrypted_block_bytes (env : CryptoEnv) (block_data : Bytes) : Bytes :=
  let block_key := derive_key_from_content env block_data
  let nonce := block_nonce env (calculate_block_hash env block_data)
  let ct_tag := env.aes_gcm_encrypt block_key nonce block_data
  nonce ++ ct_tag.2 ++ ct_tag.1

/-- The existing-block query of `deduplicate_before_encryption`
(lines 126-135): rows with the given hash, scoped to the uploader's own
files unless cross-user dedup is on, ordered by `created_at ASC`, first
row taken.  `content_blocks` is kept in `created_at` order, so the first
matching row models `.first()`. -/
def existing_block (db : DedupDB) (user_id : String) (h : String) : Option ContentBlock :=
  (db.content_blocks.filter (fun cb =>
      cb.block_hash = h ∧
      (enable_cross_user_dedup = true ∨
        ∃ o ∈ db.objects, o.id = cb.file_id ∧ o.user_id = user_id))).head?

/-- Per-block record of `deduplicate_before_encryption` (lines 167-172). -/
structure BlockInfo where
  hash : String
  size : Nat
  offset : Nat
  is_duplicate : Bool
deriving DecidableEq, Repr

/-- The block-classification walk of `deduplicate_before_encryption`
(lines 115-174): each boundary yields the slice `data[start:boundary]`,
its hash, and whether an existing row makes it a duplicate.  The slice
itself is carried alongside for the storage phase. -/
def classify_blocks_from (env : CryptoEnv) (db : DedupDB) (user_id : String)
    (data : Bytes) (start : Nat) : List Nat → List (BlockInfo × Bytes)
  | [] => []
  | b :: bs =>
    let block := (data.drop start).take (b - start)
    let block_hash := calculate_block_hash env block
    let dup := (existing_block db user_id block_hash).isSome
    (⟨block_hash, block.length, start, dup⟩, block) ::
      classify_blocks_from env db user_id data b bs

/-- All classified blocks of a file. -/
def classify_blocks (env : CryptoEnv) (db : DedupDB) (user_id : String)
    (data : Bytes) : List (BlockInfo × Bytes) :=
  classify_blocks_from env db user_id data 0 (find_chunk_boundaries data)

/-- The full-file duplicate check of `store_deduplicated_file`
(lines 221-228): an `Object` with the same `content_hash`, scoped to the
uploader unless cross-user dedup is enabled. -/
def full_duplicate_exists (env : CryptoEnv) (db : DedupDB) (user_id : String)
    (file_data : Bytes) : Bool :=
  db.objects.any (fun o =>
    o.content_hash = calculate_block_hash env file_data &&
    (enable_cross_user_dedup || o.user_id = user_id))

/-- The CAS writes performed by `store_deduplicated_file`
(lines 230-314): none on the full-duplicate path; otherwise one write
per new unique block whose content path does not yet exist, carrying
`nonce || tag || ciphertext` when `encrypt` is set and the raw block
otherwise.  Each record keeps the plaintext block, the path and the
bytes written. -/
def cas_writes (env : CryptoEnv) (db : DedupDB) (user_id : String)
    (file_data : Bytes) (encrypt : Bool) : List (Bytes × String × Bytes) :=
  if full_duplicate_exists env db user_id file_data then []
  else
    (classify_blocks env db user_id file_data).filterMap (fun bi =>
      if bi.1.is_duplicate then none
      else
        let content_path := get_content_address bi.1.hash
        if (assoc_get db.cas content_path).isSome then none
        else some (bi.2, content_path,
          if encrypt then encrypted_block_bytes env bi.2 else bi.2))

/-! Garbage collection (`garbage_collect`, lines 470-528).  The state
holds the `ContentBlock` rows, the `Object` rows reduced to the block
hashes their `chunk_info["blocks"]` manifests reference, the CAS
directory (hash, on-disk size) and the set of sidecar `.key` files
(also keyed by hash).  The pure model raises no exceptions, so the
summary's error list is always empty. -/

/-- An `Object` row as the garbage collector sees it: its id and the
block hashes referenced by its `chunk_info["blocks"]` manifest. -/
structure GCFileRow where
  id : Nat
  chunk_blocks : List String
deriving DecidableEq, Repr

/-- State operated on by the garbage collector. -/
structure GCState where
  blocks : List ContentBlock
  files : List GCFileRow
  cas : List (String × Nat)
  key_files : List String
deriving DecidableEq, Repr

/-- Summary returned by `garbage_collect` (lines 524-528). -/
structure GCSummary where
  deleted_blocks : Nat
  freed_space : Nat
  errors : List String
deriving DecidableEq, Repr

/-- The rescan query (lines 488-496): count of `Object` rows whose
manifest contains an entry with the given hash. -/
def count_file_refs (files : List GCFileRow) (h : String) : Nat :=
  (files.filter (fun f => h ∈ f.chunk_blocks)).length

/-- Accumulator of the garbage-collection loop. -/
structure GCAcc where
  blocks : List ContentBlock
  cas : List (String × Nat)
  key_files : List String
  deleted_count : Nat
  freed_space : Nat
deriving Repr

/-- One iteration of the loop over unreferenced blocks (lines 485-514):
re-verify by scanning manifests; if no file references the hash and the
CAS file exists, its size is added to the freed count, the file is
removed, and -- inside that same existence branch (lines 501-508) -- the
sidecar `.key` file is removed when present, so an orphan key file whose
CAS file is already missing is kept; the row is deleted and counted in
both cases.  Otherwise `reference_count` is repaired to the rescan
count. -/
def gc_step (files : List GCFileRow) (acc : GCAcc) (block : ContentBlock) : GCAcc :=
  let ref_count := count_file_refs files block.block_hash
  if ref_count = 0 then
    match assoc_get acc.cas block.block_hash with
    | some file_size =>
      { blocks := acc.blocks.filter (fun b => b.id ≠ block.id)
        cas := acc.cas.filter (fun c => c.1 ≠ block.block_hash)
        key_files := acc.key_files.filter (fun k => k ≠ block.block_hash)
        deleted_count := acc.deleted_count + 1
        freed_space := acc.freed_space + file_size }
    | none =>
      { acc with
        blocks := acc.blocks.filter (fun b => b.id ≠ block.id)
        deleted_count := acc.deleted_count + 1 }
  else
    { acc with
      blocks := acc.blocks.map (fun b =>
        if b.id = block.id then { b with reference_count := ref_count } else b) }

/-- `garbage_collect` (lines 470-528): select rows with
`reference_count <= 0`, run the per-block loop, and return the new state
with the summary. -/
def garbage_collect (st : GCState) : GCState × GCSummary :=
  let unreferenced_blocks := st.blocks.filter (fun b => b.reference_count ≤ 0)
  let acc := unreferenced_blocks.foldl (gc_step st.files)
    ⟨st.blocks, st.cas, st.key_files, 0, 0⟩
  (⟨acc.blocks, st.files, acc.cas, acc.key_files⟩,
   ⟨acc.deleted_count, acc.freed_space, []⟩)

/-- Composite effect on a stored row of processing the unreferenced rows
of `l`: untouched rows survive, rows whose rescan count is zero are
dropped, and the rest have their `reference_count` repaired to the
rescan count. -/
def gc_apply (files : List GCFileRow) (l : List ContentBlock) (r : ContentBlock) :
    Option ContentBlock :=
  match l.find? (fun b => b.id = r.id) with
  | none => some r
  | some b =>
    if count_file_refs files b.block_hash = 0 then none
    else some { r with reference_count := (count_file_refs files b.block_hash : Int) }

/-- The claimed fate of one stored row under a garbage-collection pass:
a row with positive `reference_count` is untouched; an unreferenced row
is deleted exactly when the manifest rescan finds no reference, and
otherwise repaired to the rescan count. -/
def gc_row_outcome (files : List GCFileRow) (r : ContentBlock) : Option ContentBlock :=
  if r.reference_count ≤ 0 then
    if count_file_refs files r.block_hash = 0 then none
    else some { r with reference_count := (count_file_refs files r.block_hash : Int) }
  else some r

/-- Whether a garbage-collection pass over `blocks` deletes the CAS
entry keyed `h`: some stored row with that hash is unreferenced and
rescan-dead. -/
def gc_deletes_hash (files : List GCFileRow) (blocks : List ContentBlock)
    (h : String) : Bool :=
  blocks.any (fun b =>
    decide (b.reference_count ≤ 0) &&
    decide (count_file_refs files b.block_hash = 0) && decide (b.block_hash = h))

/-- Whether a garbage-collection pass deletes the sidecar `.key` file
keyed `k`: some stored row with that hash is unreferenced and
rescan-dead, and its CAS file is present -- the source removes the
sidecar only inside the CAS-file existence branch, so an orphan key is
kept when the CAS file is missing. -/
def gc_deletes_key (files : List GCFileRow) (blocks : List ContentBlock)
    (cas : List (String × Nat)) (k : String) : Bool :=
  blocks.any (fun b =>
    decide (b.reference_count ≤ 0) &&
    (decide (count_file_refs files b.block_hash = 0) &&
      (decide (b.block_hash = k) && (assoc_get cas b.block_hash).isSome)))

end EnhancedDeduplicationService

namespace UploadRouter

/-! Embedding of `app/routers/upload.py`. -/

/-- `INLINE_THRESHOLD` default (line 47): 512 KiB. -/
def INLINE_THRESHOLD : Nat := 512 * 1024

/-- `SINGLE_OBJECT_THRESHOLD` default (line 48): 50 MiB. -/
def SINGLE_OBJECT_THRESHOLD : Nat := 50 * 1024 * 1024

/-- `CHUNK_SIZE` default (line 49): 32 MiB. -/
def CHUNK_SIZE : Nat := 32 * 1024 * 1024

/-- `UploadInitResponse` as returned by `init_upload` (lines 199-205). -/
structure UploadInitResponse where
  upload_id : String
  storage_strategy : String
  chunk_size : Nat
  total_chunks : Nat
  direct_upload : Bool
deriving DecidableEq, Repr

/-- `init_upload` (lines 132-205) under the default threshold
configuration: the request validation, the quota check against the
owner's `storage_used`/`storage_quota`, and the storage-strategy
decision.  `upload_id` stands for the generated UUID. -/
def init_upload (file_name : String) (file_size : Nat) (used quota : Nat)
    (upload_id : String) : Except HttpError UploadInitResponse :=
  if file_name = "" then .error ⟨400, "file_name and file_size required", none⟩
  else if quota < used + file_size then .error ⟨413, "Storage quota exceeded", none⟩
  else
    let storage_strategy :=
      if file_size < INLINE_THRESHOLD then "inline"
      else if file_size < SINGLE_OBJECT_THRESHOLD then "single"
      else "chunked"
    let total_chunks :=
      if file_size < INLINE_THRESHOLD then 0
      else if file_size < SINGLE_OBJECT_THRESHOLD then 0
      else (file_size + CHUNK_SIZE - 1) / CHUNK_SIZE
    .ok ⟨upload_id, storage_strategy,
      if storage_strategy = "chunked" then CHUNK_SIZE else 0,
      total_chunks,
      storage_strategy ≠ "chunked"⟩

/-- The Redis session record created by `init_upload` (lines 172-186) and
mutated by the chunk and direct handlers. -/
structure UploadSession where
  id : String
  user : String
  name : String
  size : Nat
  folder : Option String
  strategy : String
  chunks : Nat
  done : List Nat
  hashes : List String
  chunk_paths : List (Nat × String)
  key : String
  compress : Bool
deriving DecidableEq, Repr

/-- The state touched by `upload_chunk`: the session store (keyed by the
Redis key `up:(upload_id)`) and the on-disk encrypted frames (keyed by
path). -/
structure UploadState where
  sessions : List (String × UploadSession)
  disk : List (String × Bytes)
deriving DecidableEq, Repr

/-- Response body of `upload_chunk` (the `status` and `chunk_index`
fields; the reported progress percentage is a float and is not part of
the modelled state). -/
structure ChunkResult where
  status : String
  chunk_index : Nat
deriving DecidableEq, Repr

/-- The temporary frame path of a chunk (lines 230-235): cache tier,
sharded by the first two characters of the upload id. -/
def chunk_storage_path (upload_id : String) (chunk_index : Nat) : String :=
  "/app/storage/cache/" ++ upload_id.take 2 ++ "/" ++ upload_id ++
    "_chunk_" ++ toString chunk_index ++ ".enc"

/-- `upload_chunk` (lines 207-274): session lookup, ownership check,
idempotent early return for an already-recorded index, then hash of the
original bytes, optional compression, encryption bound to the index,
frame write, and the session update appending to `done`, `hashes` and
`chunk_paths`.  No check compares `chunk_index` with the session's
chunk count. -/
def upload_chunk (env : CryptoEnv) (st : UploadState) (current_user : String)
    (upload_id : String) (chunk_index : Nat) (chunk : Bytes) :
    Except HttpError ChunkResult × UploadState :=
  match assoc_get st.sessions ("up:" ++ upload_id) with
  | none => (.error ⟨404, "Upload session not found", none⟩, st)
  | some session =>
    if session.user ≠ current_user then (.error ⟨403, "Unauthorized", none⟩, st)
    else if chunk_index ∈ session.done then
      (.ok ⟨"already_uploaded", chunk_index⟩, st)
    else
      let storage_path := chunk_storage_path upload_id chunk_index
      let file_key := env.decrypt_key session.key
      let chunk_hash := hexEncode (env.sha256 chunk)
      let processed := if session.compress then env.compress chunk else chunk
      let encrypted_chunk := env.encrypt_chunk processed file_key chunk_index
      let session2 := { session with
        done := session.done ++ [chunk_index]
        hashes := session.hashes ++ [chunk_hash]
        chunk_paths := assoc_set session.chunk_paths chunk_index storage_path }
      (.ok ⟨"success", chunk_index⟩,
        { sessions := assoc_set st.sessions ("up:" ++ upload_id) session2
          disk := assoc_set st.disk storage_path encrypted_chunk })

/-- Outcome of `complete_upload` as far as the deduplication gate is
concerned: whether the deduplication pipeline was invoked, the
`storage_type` reported for the stored file (`none` when the completion
was refused as incomplete), and the response status. -/
structure CompleteOutcome where
  attempted_dedup : Bool
  storage_type : Option String
  status : String
deriving DecidableEq, Repr

/-- The deduplication gate of `complete_upload` (line 382):
`session["size"] > 10 * 1024 * 1024 and storage_strategy in
["single", "chunked"]`. -/
def dedup_gate (size : Nat) (storage_strategy : String) : Bool :=
  decide (10 * 1024 * 1024 < size) &&
    (storage_strategy = "single" || storage_strategy = "chunked")

/-- Control flow of `complete_upload` (lines 352-642) at the granularity
of the deduplication gate.  `has_file_data` models whether the original
plaintext could be reassembled (lines 387-431; the pipeline is skipped
when `file_data` is falsy), `dedup_status` the `status` field returned
by `store_deduplicated_file`.  When the gate is closed, or reassembly or
deduplication fails, the handler falls through to the normal path, which
stores the file under the session's own strategy (lines 537-601). -/
def complete_upload (session : UploadSession) (has_file_data : Bool)
    (dedup_status : String) : CompleteOutcome :=
  let storage_strategy := session.strategy
  if storage_strategy = "chunked" ∧ session.done.length ≠ session.chunks then
    ⟨false, none, "incomplete"⟩
  else
    let enable_dedup := dedup_gate session.size storage_strategy
    if enable_dedup ∧ has_file_data then
      if dedup_status = "stored_with_dedup" ∨ dedup_status = "full_duplicate" then
        ⟨true, some "deduplicated", "success"⟩
      else ⟨true, some storage_strategy, "success"⟩
    else ⟨false, some storage_strategy, "success"⟩

end UploadRouter

namespace QuotaAccounting

/-! The quota bookkeeping performed by upload completion
(`app/routers/upload.py`) and file deletion (`app/routers/files.py`),
restricted to one user: the `storage_used` counter and the user's file
rows `(id, file_size)`. -/

/-- One user's accounting state. -/
structure UserFiles where
  storage_used : Int
  files : List (Nat × Nat)
deriving DecidableEq, Repr

/-- The invariant claimed by the spec: `storage_used` equals the sum of
the remaining files' sizes. -/
def quota_inv (st : UserFiles) : Prop :=
  st.storage_used = ((st.files.map (fun f => f.2)).sum : Nat)

instance (st : UserFiles) : Decidable (quota_inv st) := by
  unfold quota_inv; infer_instance

/-- Non-deduplicated completion (upload.py lines 537-603): a file row of
the declared size is created and `storage_used` grows by the full
session size. -/
def complete_upload_normal (st : UserFiles) (fid : Nat) (size : Nat) : UserFiles :=
  { storage_used := st.storage_used + size
    files := st.files ++ [(fid, size)] }

/-- Deduplicated completion (upload.py lines 449-484 together with
`store_deduplicated_file`): the created `Object` row carries the full
file size (`file_size=dedup_result['total_size']`), but `storage_used`
grows only by `size - actual_saved`, where `actual_saved` is the
service's saved-size (the whole size for a full duplicate). -/
def complete_upload_dedup (st : UserFiles) (fid : Nat) (size saved : Nat) : UserFiles :=
  { storage_used := st.storage_used + ((size : Int) - (saved : Int))
    files := st.files ++ [(fid, size)] }

/-- `delete_file` (files.py lines 498-554): the first row with the id is
removed and `storage_used` shrinks by that row's `file_size`; a missing
file is a 404 and changes nothing. -/
def delete_file (st : UserFiles) (fid : Nat) : UserFiles :=
  match st.files.find? (fun f => f.1 = fid) with
  | none => st
  | some f =>
    { storage_used := st.storage_used - f.2
      files := st.files.eraseP (fun g => g.1 = fid) }

end QuotaAccounting

namespace FilesRouter

/-! Embedding of `app/routers/files.py`: range parsing and the
range-aware download endpoint. -/

/-- A `Range` request header after matching `RANGE_RE =
bytes=(\d*)-(\d*)`: absent, not matching the pattern, or the two
(possibly empty) digit groups. -/
inductive RangeHeader
  | noHeader
  | malformed
  | groups (startGroup endGroup : Option Nat)
deriving DecidableEq, Repr

/-- Validation and clamping at the end of `parse_range_header`
(lines 90-101).  Offsets are integers, as in the source, where
`end = file_size - 1` can be `-1` for an empty file. -/
def validate_range (start e : Int) (file_size : Nat) :
    Except HttpError (Option (Int × Int)) :=
  if start > e ∨ (file_size : Int) ≤ start then
    .error ⟨416, "Range Not Satisfiable", some ("bytes */" ++ toString file_size)⟩
  else .ok (some (start, min e ((file_size : Int) - 1)))

/-- `parse_range_header` (lines 66-101): no header streams the whole
file; a non-matching header is a 416 without `Content-Range`; an empty
suffix spec `bytes=-0` also streams the whole file; otherwise the
start/end offsets are computed (suffix or explicit form) and validated,
replying 416 with `Content-Range: bytes */size` when `start > end` or
`start >= file_size`. -/
def parse_range_header (range_header : RangeHeader) (file_size : Nat) :
    Except HttpError (Option (Int × Int)) :=
  match range_header with
  | .noHeader => .ok none
  | .malformed => .error ⟨416, "Invalid Range header", none⟩
  | .groups none none => .error ⟨416, "Invalid Range header", none⟩
  | .groups none (some suffix_len) =>
    if suffix_len = 0 then .ok none
    else validate_range (max 0 ((file_size : Int) - suffix_len))
      ((file_size : Int) - 1) file_size
  | .groups (some s) (some e) => validate_range s e file_size
  | .groups (some s) none => validate_range s ((file_size : Int) - 1) file_size

/-- An `Object` row as the download endpoint uses it.  `storage_key`
holds the inline encrypted payload (the source keeps it base64-encoded
in the row and decodes before use; the model stores the decoded bytes),
`chunk_*` mirror `chunk_info`, and `metadata_compressed` the
`file_metadata["compressed"]` flag. -/
structure FileObj where
  id : String
  user_id : String
  file_name : String
  file_size : Nat
  mime_type : String
  content_hash : String
  encryption_key : String
  storage_type : String
  storage_key : Bytes
  object_path : String
  metadata_compressed : Bool
  chunk_count : Nat
  chunk_paths : List (Nat × String)
  chunk_upload_id : String
  chunk_compressed : Bool
  last_accessed : Option Nat
deriving DecidableEq, Repr

/-- Fallback chunk path (lines 152-155): the stored path, or the cache
path sharded by the upload id (shard `"00"` when the id is shorter than
two characters). -/
def chunk_path_for (f : FileObj) (i : Nat) : String :=
  match assoc_get f.chunk_paths i with
  | some p => p
  | none =>
    let shard := if 2 ≤ f.chunk_upload_id.length then f.chunk_upload_id.take 2 else "00"
    "/app/storage/cache/" ++ shard ++ "/" ++ f.chunk_upload_id ++
      "_chunk_" ++ toString i ++ ".enc"

/-- The loop body of `stream_chunked_range` (lines 150-191), iterating
`remaining` chunk indices starting at `idx` while tracking the plaintext
position: each frame is read, decrypted with the index as AAD,
decompressed when flagged, and the intersection with `[start, e]` is
emitted. -/
def stream_chunked_from (env : CryptoEnv) (disk : List (String × Bytes))
    (f : FileObj) (file_key : Bytes) (start e : Int) :
    Nat → Nat → Int → Except HttpError Bytes
  | _, 0, _ => .ok []
  | idx, r + 1, current_pos =>
    match assoc_get disk (chunk_path_for f idx) with
    | none => .error ⟨404, "Chunk " ++ toString idx ++ " missing", none⟩
    | some encrypted_chunk =>
      let dec := env.decrypt_chunk encrypted_chunk file_key idx
      let dec := if f.chunk_compressed then env.decompress dec else dec
      let chunk_size : Int := dec.length
      let chunk_end := current_pos + chunk_size - 1
      if chunk_end < start then
        stream_chunked_from env disk f file_key start e (idx + 1) r (current_pos + chunk_size)
      else if e < current_pos then .ok []
      else
        let slice_start := max 0 (start - current_pos)
        let slice_end := min chunk_size (e - current_pos + 1)
        let piece := if slice_start < slice_end then
            (dec.drop slice_start.toNat).take (slice_end - slice_start).toNat
          else []
        (stream_chunked_from env disk f file_key start e (idx + 1) r
            (current_pos + chunk_size)).map (fun rest => piece ++ rest)

/-- `stream_chunked_range` (lines 125-191): refuses a file without
chunks, then walks all chunks from position 0. -/
def stream_chunked_range (env : CryptoEnv) (disk : List (String × Bytes))
    (f : FileObj) (file_key : Bytes) (start e : Int) : Except HttpError Bytes :=
  if f.chunk_count = 0 then .error ⟨500, "No chunks found", none⟩
  else stream_chunked_from env disk f file_key start e 0 f.chunk_count 0

/-- request method of the download endpoint. -/
inductive Method
  | get
  | head
deriving DecidableEq, Repr

/-- The response of the download endpoint: status, the `Content-Range`
and `Content-Length` headers when set, and the body bytes (empty for
HEAD). -/
structure DlResponse where
  status : Nat
  content_range : Option String
  content_length : Option Nat
  body : Bytes
deriving DecidableEq, Repr

/-- Result of a download request: the HTTP outcome, the (possibly
updated) file table, and the activity records emitted. -/
structure DlOutcome where
  response : Except HttpError DlResponse
  db : List FileObj
  activity : List (String × String)
deriving DecidableEq, Repr

/-- The `Content-Range` header value `bytes (start)-(end)/(size)`. -/
def content_range_header (s e : Int) (total_size : Nat) : String :=
  "bytes " ++ toString s ++ "-" ++ toString e ++ "/" ++ toString total_size

/-- Python slice `data[start:end+1]` for the validated non-negative
range offsets. -/
def range_slice (data : Bytes) (s e : Int) : Bytes :=
  (data.drop s.toNat).take (e - s + 1).toNat

/-- `last_accessed` update (line 247). -/
def update_last_accessed (db : List FileObj) (fid : String) (now : Nat) :
    List FileObj :=
  db.map (fun f => if f.id = fid then { f with last_accessed := some now } else f)

/-- `download_file` (lines 193-393).  The handler fetches the row scoped
to the requesting user, answers HEAD before any side effect, parses the
range header (propagating its 416 before any side effect), then updates
`last_accessed`, logs the download activity, and dispatches on
`storage_type`: `inline` (decode, decrypt, decompress, optional slice),
`single` (read from disk, decrypt, decompress, optional slice;
`USE_X_ACCEL` is unset by default so the offload branch is dead),
`chunked` (range-aware streaming over the frames), and any other
storage type is a 500 `Unknown storage type`. -/
def download_file (env : CryptoEnv) (disk : List (String × Bytes))
    (db : List FileObj) (current_user fid : String) (method : Method)
    (range_h : RangeHeader) (now : Nat) : DlOutcome :=
  match db.find? (fun f => f.id = fid && f.user_id = current_user) with
  | none => ⟨.error ⟨404, "File not found", none⟩, db, []⟩
  | some f =>
    let file_key := env.decrypt_key f.encryption_key
    let total_size := f.file_size
    if method = .head then
      ⟨.ok ⟨200, none, some total_size, []⟩, db, []⟩
    else
      match parse_range_header range_h total_size with
      | .error err => ⟨.error err, db, []⟩
      | .ok parsed_range =>
        let db2 := update_last_accessed db fid now
        let act := [("file_downloaded", fid)]
        if f.storage_type = "inline" then
          let data := env.decrypt_file f.storage_key file_key
          let data := if f.metadata_compressed then env.decompress data else data
          match parsed_range with
          | some (s, e) =>
            ⟨.ok ⟨206, some (content_range_header s e total_size),
                some (range_slice data s e).length, range_slice data s e⟩, db2, act⟩
          | none => ⟨.ok ⟨200, none, some data.length, data⟩, db2, act⟩
        else if f.storage_type = "single" then
          match assoc_get disk f.object_path with
          | none => ⟨.error ⟨404, "File not found on disk", none⟩, db2, act⟩
          | some encrypted_data =>
            let data := env.decrypt_file encrypted_data file_key
            let data := if f.metadata_compressed then env.decompress data else data
            match parsed_range with
            | some (s, e) =>
              ⟨.ok ⟨206, some (content_range_header s e total_size),
                  some (e - s + 1).toNat, range_slice data s e⟩, db2, act⟩
            | none => ⟨.ok ⟨200, none, some total_size, data⟩, db2, act⟩
        else if f.storage_type = "chunked" then
          match parsed_range with
          | some (s, e) =>
            match stream_chunked_range env disk f file_key s e with
            | .error err => ⟨.error err, db2, act⟩
            | .ok body =>
              ⟨.ok ⟨206, some (content_range_header s e total_size),
                  some (e - s + 1).toNat, body⟩, db2, act⟩
          | none =>
            match stream_chunked_range env disk f file_key 0 ((total_size : Int) - 1) with
            | .error err => ⟨.error err, db2, act⟩
            | .ok body => ⟨.ok ⟨200, none, some total_size, body⟩, db2, act⟩
        else
          ⟨.error ⟨500, "Unknown storage type", none⟩, db2, act⟩

end FilesRouter

namespace Fixtures

/-! Concrete states used by witnesses and counterexamples. -/

/-- A chunked upload session with 2 expected chunks and nothing
uploaded yet. -/
def s0 : UploadRouter.UploadSession :=
  ⟨"ab", "u", "f.bin", 100 * 1024 * 1024, none, "chunked", 2, [], [], [], "k", false⟩

/-- Upload state holding only `s0`. -/
def st0 : UploadRouter.UploadState := ⟨[("up:ab", s0)], []⟩

/-- A file stored by the deduplication pipeline with storage type
`content_addressed`. -/
def ca_file : FilesRouter.FileObj :=
  ⟨"f1", "u1", "big.bin", 11534336, "application/octet-stream", "aa", "k1",
    "content_addressed", [], "", false, 0, [], "", false, none⟩

/-- A full-duplicate file row with storage type `deduplicated_reference`. -/
def dr_file : FilesRouter.FileObj :=
  { ca_file with id := "f2", storage_type := "deduplicated_reference" }

/-- A 10-byte single-object file used for range-request witnesses. -/
def range_file : FilesRouter.FileObj :=
  ⟨"f7", "u7", "doc.txt", 10, "text/plain", "bb", "k7", "single", [],
    "/app/storage/cache/objects/f7.enc", false, 0, [], "", false, none⟩

/-- A small completed inline-upload session. -/
def s_inline : UploadRouter.UploadSession :=
  ⟨"cd", "u", "tiny.bin", 100, none, "inline", 0, [], [], [], "k", false⟩

/-- A garbage-collection state: block 1 (hash `aa`) is unreferenced and
rescan-dead with its CAS file and sidecar key present; block 2 (hash
`bb`) is unreferenced but still referenced by file 20's manifest; block
3 (hash `cc`) has a positive count; block 4 (hash `dd`) is unreferenced
and rescan-dead but its CAS file is missing while an orphan `dd` sidecar
key exists. -/
def gc_state : EnhancedDeduplicationService.GCState :=
  ⟨[⟨1, "aa", 10, 4, 0, 0, 0⟩, ⟨2, "bb", 11, 7, 0, 0, 1⟩,
    ⟨3, "cc", 12, 9, 0, 2, 2⟩, ⟨4, "dd", 13, 5, 0, 0, 3⟩],
   [⟨20, ["bb"]⟩],
   [("aa", 4), ("bb", 7), ("cc", 9)],
   ["aa", "cc", "dd"]⟩

end Fixtures

namespace EnhancedDeduplicationService

/-! Properties of the content-defined chunker. -/

lemma chunk_scan_succ (data : Nat → Nat) (n : Nat) :
    chunk_scan data (n + 1) =
      (rolling_hash_step data (chunk_scan data n).1 n,
        boundary_step (rolling_hash_step data (chunk_scan data n).1 n) n
          (chunk_scan data n).2) := rfl

lemma gaps_from_append (l : List Nat) (p x : Nat) :
    gaps_from p (l ++ [x]) = gaps_from p l ++ [x - l.getLastD p] := by
  induction l generalizing p with
  | nil => simp [gaps_from]
  | cons b bs ih =>
    simp only [List.cons_append, gaps_from, List.append_eq, ih, List.getLastD_cons]

lemma boundary_step_inv (hv : Int) (i : Nat) (bs : List Nat)
    (hg : ∀ g ∈ gaps_from 0 bs, g ≤ max_block_size + 1)
    (hle : bs.getLastD 0 ≤ i)
    (hub : i ≤ bs.getLastD 0 + max_block_size) :
    (∀ g ∈ gaps_from 0 (boundary_step hv i bs), g ≤ max_block_size + 1) ∧
    (boundary_step hv i bs).getLastD 0 ≤ i + 1 ∧
    i + 1 ≤ (boundary_step hv i bs).getLastD 0 + max_block_size := by
  have happend :
      (∀ g ∈ gaps_from 0 (bs ++ [i + 1]), g ≤ max_block_size + 1) ∧
      (bs ++ [i + 1]).getLastD 0 ≤ i + 1 ∧
      i + 1 ≤ (bs ++ [i + 1]).getLastD 0 + max_block_size := by
    refine ⟨?_, ?_, ?_⟩
    · intro g hgmem
      rw [gaps_from_append] at hgmem
      rcases List.mem_append.1 hgmem with h | h
      · exact hg g h
      · have hgeq := List.mem_singleton.1 h
        omega
    · rw [List.getLastD_concat]
    · rw [List.getLastD_concat]; omega
  unfold boundary_step
  by_cases hmin : min_block_size ≤ i
  · rw [if_pos hmin]
    by_cases hmask : hv.toNat &&& modulus = modulus
    · rw [if_pos hmask]; exact happend
    · rw [if_neg hmask]
      by_cases hmx : (max_block_size : Int) ≤ (i : Int) - (bs.getLastD 0 : Int)
      · rw [if_pos hmx]; exact happend
      · rw [if_neg hmx]
        refine ⟨hg, by omega, ?_⟩
        omega
  · rw [if_neg hmin]
    have hminmax : min_block_size ≤ max_block_size := by decide
    refine ⟨hg, by omega, ?_⟩
    omega

lemma chunk_scan_inv (data : Nat → Nat) (n : Nat) :
    (∀ g ∈ gaps_from 0 (chunk_scan data n).2, g ≤ max_block_size + 1) ∧
    (chunk_scan data n).2.getLastD 0 ≤ n ∧
    n ≤ (chunk_scan data n).2.getLastD 0 + max_block_size := by
  induction n with
  | zero =>
    refine ⟨?_, ?_, ?_⟩ <;> simp [chunk_scan, gaps_from]
  | succ k ih =>
    obtain ⟨hg, hle, hub⟩ := ih
    have h := boundary_step_inv
      (rolling_hash_step data (chunk_scan data k).1 k) k (chunk_scan data k).2 hg hle hub
    simpa [chunk_scan] using h

/-- C4 (amended): every block delimited by `find_chunk_boundaries` has
size at most `max_block_size + 1` bytes (the max-size rule appends the
boundary at `i + 1` when `i - last ≥ max_block_size`, so blocks of
exactly `max_block_size + 1` bytes occur), hash boundaries are emitted
at loop positions `i ≥ min_block_size` when the masked rolling hash
equals the modulus, and a final boundary is always emitted at
end-of-stream. -/
theorem cdc_block_size_bound (data : List Nat) :
    (∀ g ∈ block_sizes (find_chunk_boundaries data), g ≤ max_block_size + 1) ∧
    (find_chunk_boundaries data).getLast? = some data.length := by
  unfold find_chunk_boundaries block_sizes
  by_cases hlen : data.length < min_block_size
  · rw [if_pos hlen]
    refine ⟨?_, by simp⟩
    intro g hgmem
    simp only [gaps_from, List.mem_singleton, List.not_mem_nil, or_false] at hgmem
    have hminmax : min_block_size ≤ max_block_size + 1 := by decide
    omega
  · rw [if_neg hlen]
    obtain ⟨hg, hle, hub⟩ := chunk_scan_inv (fun i => data.getD i 0) data.length
    by_cases hlast :
        (chunk_scan (fun i => data.getD i 0) data.length).2.getLast? = some data.length
    · rw [if_pos hlast]
      exact ⟨hg, hlast⟩
    · rw [if_neg hlast]
      refine ⟨?_, List.getLast?_concat _⟩
      intro g hgmem
      rw [gaps_from_append] at hgmem
      rcases List.mem_append.1 hgmem with h | h
      · exact hg g h
      · have hgeq := List.mem_singleton.1 h
        omega

/-- Witness for `cdc_block_size_bound` at the empty input, whose single
block has size 0. -/
theorem cdc_block_size_bound_witness :
    (0 : Nat) ∈ block_sizes (find_chunk_boundaries []) ∧
      (0 : Nat) ≤ max_block_size + 1 :=
  ⟨by decide, (cdc_block_size_bound []).1 0 (by decide)⟩

lemma getD_replicate_zero (n i : Nat) :
    (List.replicate n (0 : Nat)).getD i 0 = 0 := by
  induction n generalizing i with
  | zero => simp
  | succ k ih =>
    cases i with
    | zero => simp [List.replicate]
    | succ j => simp [List.replicate, ih]

lemma zeros_fun_eq :
    (fun i => (List.replicate 8388610 (0 : Nat)).getD i 0) = fun _ => (0 : Nat) :=
  funext fun i => getD_replicate_zero _ _

lemma rolling_hash_step_zero (k : Nat) :
    rolling_hash_step (fun _ => (0 : Nat)) 0 k = 0 := by
  unfold rolling_hash_step
  split <;> norm_num

lemma chunk_scan_zero (n : Nat) (h : n ≤ 8388608) :
    chunk_scan (fun _ => (0 : Nat)) n = (0, []) := by
  induction n with
  | zero => rfl
  | succ k ih =>
    have hk : k ≤ 8388608 := Nat.le_of_succ_le h
    have hstep : chunk_scan (fun _ => (0 : Nat)) (k + 1) =
        (rolling_hash_step (fun _ => (0 : Nat)) 0 k,
          boundary_step (rolling_hash_step (fun _ => (0 : Nat)) 0 k) k []) := by
      simp [chunk_scan, ih hk]
    rw [hstep, rolling_hash_step_zero]
    have hb : boundary_step 0 k [] = [] := by
      have hmask : ¬ ((0 : Int).toNat &&& modulus = modulus) := by decide
      have hmx : ¬ ((max_block_size : Int) ≤ (k : Int) - (([] : List Nat).getLastD 0 : Int)) := by
        have hk8 : k < 8388608 := by omega
        simp only [List.getLastD, max_block_size]
        push_cast
        omega
      unfold boundary_step
      rw [if_neg hmask, if_neg hmx]
      split <;> rfl
    rw [hb]

lemma chunk_scan_zero_8388609 :
    chunk_scan (fun _ => (0 : Nat)) 8388609 = (0, [8388609]) := by
  have h8 : (8388609 : Nat) = 8388608 + 1 := by norm_num
  rw [h8, chunk_scan_succ, chunk_scan_zero 8388608 (by norm_num)]
  decide

lemma chunk_scan_zero_8388610 :
    chunk_scan (fun _ => (0 : Nat)) 8388610 = (0, [8388609]) := by
  have h8 : (8388610 : Nat) = 8388609 + 1 := by norm_num
  rw [h8, chunk_scan_succ, chunk_scan_zero_8388609]
  decide

/-- C4 counterexample: on the all-zero input of 8388610 bytes the
rolling hash stays 0, so only the max-size rule fires; it fires at loop
index 8388608 and appends the boundary 8388609, producing a first block
of 8388609 bytes -- strictly more than `max_block_size = 8 MiB`.  The
claimed 8 MiB block-size bound is therefore false. -/
theorem cdc_max_bound_counterexample :
    ¬ (∀ g ∈ block_sizes (find_chunk_boundaries (List.replicate 8388610 (0 : Nat))),
        g ≤ max_block_size) := by
  have hlen : (List.replicate 8388610 (0 : Nat)).length = 8388610 :=
    List.length_replicate _ _
  have hfb : find_chunk_boundaries (List.replicate 8388610 (0 : Nat)) =
      [8388609, 8388610] := by
    unfold find_chunk_boundaries
    rw [hlen, zeros_fun_eq, if_neg (by decide : ¬ (8388610 < min_block_size)),
      chunk_scan_zero_8388610]
    decide
  intro hall
  have h1 := hall 8388609 (by rw [hfb]; decide)
  revert h1
  decide

end EnhancedDeduplicationService

lemma assoc_get_set_eq {κ α : Type} [DecidableEq κ] (l : List (κ × α)) (k : κ) (v : α) :
    assoc_get (assoc_set l k v) k = some v := by
  unfold assoc_set
  induction l with
  | nil => simp [assoc_get]
  | cons p t ih =>
    obtain ⟨a, b⟩ := p
    by_cases ha : a = k
    · simpa [assoc_get, ha] using ih
    · simpa [assoc_get, ha] using ih

namespace UploadRouter

/-- C3 (amended): `upload_chunk` validates only session existence and
ownership; it performs no check of `chunk_index` against the session's
chunk count.  Any index not already recorded -- in range or not -- is
accepted: the handler returns `success` and appends the index to `done`
(and records the hash and frame path). -/
theorem upload_chunk_accepts_any_index (env : CryptoEnv) (st : UploadState)
    (u uid : String) (i : Nat) (X : Bytes) (s : UploadSession)
    (hs : assoc_get st.sessions ("up:" ++ uid) = some s)
    (hu : s.user = u) (hi : i ∉ s.done) :
    (upload_chunk env st u uid i X).1 = .ok ⟨"success", i⟩ ∧
    (assoc_get (upload_chunk env st u uid i X).2.sessions ("up:" ++ uid)).map
        (fun s2 => s2.done) = some (s.done ++ [i]) := by
  unfold upload_chunk
  rw [hs]
  simp [hu, hi, assoc_get_set_eq]

/-- Witness for `upload_chunk_accepts_any_index`: on the two-chunk
session `s0`, the out-of-range index 5 is accepted and recorded. -/
theorem upload_chunk_accepts_any_index_witness :
    (upload_chunk trivEnv Fixtures.st0 "u" "ab" 5 [7]).1 = .ok ⟨"success", 5⟩ ∧
    (assoc_get (upload_chunk trivEnv Fixtures.st0 "u" "ab" 5 [7]).2.sessions
        ("up:" ++ "ab")).map (fun s2 => s2.done) = some (Fixtures.s0.done ++ [5]) :=
  upload_chunk_accepts_any_index trivEnv Fixtures.st0 "u" "ab" 5 [7] Fixtures.s0
    (by decide) rfl (by decide)

/-- C3 counterexample: the session `s0` expects 2 chunks, yet
`upload_chunk` at index `5 ≥ 2` does not fail -- it returns `success`
and mutates the session, recording `done = [5]`.  The claim that an
out-of-range index is rejected with an error and leaves the session
unchanged is therefore false. -/
theorem upload_chunk_out_of_range_counterexample :
    Fixtures.s0.chunks = 2 ∧
    (upload_chunk trivEnv Fixtures.st0 "u" "ab" 5 [7]).1 = .ok ⟨"success", 5⟩ ∧
    (assoc_get (upload_chunk trivEnv Fixtures.st0 "u" "ab" 5 [7]).2.sessions
        "up:ab").map (fun s2 => s2.done) = some [5] := by
  decide

/-- C9: repeating `accept_chunk` with the same session, index and bytes
is a no-op: the second call returns `already_uploaded` and leaves the
state exactly as the first call left it (sessions and stored frames
included). -/
theorem upload_chunk_idempotent (env : CryptoEnv) (st : UploadState)
    (u uid : String) (i : Nat) (X : Bytes) (s : UploadSession)
    (hs : assoc_get st.sessions ("up:" ++ uid) = some s)
    (hu : s.user = u) :
    upload_chunk env ((upload_chunk env st u uid i X).2) u uid i X =
      (.ok ⟨"already_uploaded", i⟩, (upload_chunk env st u uid i X).2) := by
  by_cases hi : i ∈ s.done
  · have h1 : (upload_chunk env st u uid i X).2 = st := by
      unfold upload_chunk
      rw [hs]
      simp [hu, hi]
    rw [h1]
    unfold upload_chunk
    rw [hs]
    simp [hu, hi]
  · have h2 : assoc_get (upload_chunk env st u uid i X).2.sessions ("up:" ++ uid) =
        some { s with
          done := s.done ++ [i]
          hashes := s.hashes ++ [hexEncode (env.sha256 X)]
          chunk_paths := assoc_set s.chunk_paths i (chunk_storage_path uid i) } := by
      unfold upload_chunk
      rw [hs]
      simp [hu, hi, assoc_get_set_eq]
    set st1 := (upload_chunk env st u uid i X).2 with hst1
    unfold upload_chunk
    rw [h2]
    simp [hu]

/-- Witness for `upload_chunk_idempotent`: index 0 uploaded twice on the
concrete state `st0`. -/
theorem upload_chunk_idempotent_witness :
    upload_chunk trivEnv ((upload_chunk trivEnv Fixtures.st0 "u" "ab" 0 [1]).2)
        "u" "ab" 0 [1] =
      (.ok ⟨"already_uploaded", 0⟩, (upload_chunk trivEnv Fixtures.st0 "u" "ab" 0 [1]).2) :=
  upload_chunk_idempotent trivEnv Fixtures.st0 "u" "ab" 0 [1] Fixtures.s0 (by decide) rfl

/-- C6: with a non-empty file name, `init_upload` rejects with the
413 quota error exactly when `used + size` exceeds the quota; otherwise
it answers with strategy `inline` below 512 KiB, `single` below 50 MiB,
and `chunked` from 50 MiB on with `total_chunks = ceil(size / 32 MiB)`
and the 32 MiB chunk size, and `direct_upload` holds exactly for the
non-chunked strategies. -/
theorem init_upload_contract (file_name : String) (s used quota : Nat) (uid : String)
    (hname : file_name ≠ "") :
    (init_upload file_name s used quota uid =
        .error ⟨413, "Storage quota exceeded", none⟩ ↔ quota < used + s) ∧
    (used + s ≤ quota →
      init_upload file_name s used quota uid =
        .ok ⟨uid,
          if s < 512 * 1024 then "inline"
          else if s < 50 * 1024 * 1024 then "single" else "chunked",
          if 50 * 1024 * 1024 ≤ s then 32 * 1024 * 1024 else 0,
          if 50 * 1024 * 1024 ≤ s then (s + 32 * 1024 * 1024 - 1) / (32 * 1024 * 1024) else 0,
          decide (s < 50 * 1024 * 1024)⟩) := by
  unfold init_upload
  rw [if_neg hname]
  constructor
  · by_cases hq : quota < used + s
    · rw [if_pos hq]
      exact ⟨fun _ => hq, fun _ => rfl⟩
    · rw [if_neg hq]
      constructor
      · intro he
        exact absurd he (by simp)
      · intro h
        exact absurd h hq
  · intro hle
    have hq : ¬ quota < used + s := by omega
    rw [if_neg hq]
    simp only [INLINE_THRESHOLD, SINGLE_OBJECT_THRESHOLD, CHUNK_SIZE]
    by_cases h1 : s < 512 * 1024
    · have h2 : s < 50 * 1024 * 1024 := by omega
      have h3 : ¬ 50 * 1024 * 1024 ≤ s := by omega
      simp [h1, h2, h3]
    · by_cases h2 : s < 50 * 1024 * 1024
      · have h3 : ¬ 50 * 1024 * 1024 ≤ s := by omega
        simp [h1, h2, h3]
      · have h3 : 50 * 1024 * 1024 ≤ s := by omega
        simp [h1, h2, h3]

/-- Witness for `init_upload_contract` at a 100-byte upload under a
1 GB quota: strategy `inline`, no chunks, direct upload. -/
theorem init_upload_contract_witness :
    init_upload "a" 100 0 1000000000 "id" = .ok ⟨"id", "inline", 0, 0, true⟩ :=
  (init_upload_contract "a" 100 0 1000000000 "id" (by decide)).2 (by decide)

/-- The deduplication gate, written as the proposition of the claim. -/
lemma dedup_gate_iff (size : Nat) (strat : String) :
    dedup_gate size strat = true ↔
      (10 * 1024 * 1024 < size ∧ (strat = "single" ∨ strat = "chunked")) := by
  simp [dedup_gate]

/-- C10: `complete_upload` attempts the deduplication pipeline only when
the session size exceeds 10 MiB and the strategy is `single` or
`chunked`; when the gate is closed the handler never touches the
pipeline and stores the file exactly as the normal path does, under the
session's own storage strategy. -/
theorem complete_upload_dedup_gate (session : UploadSession) (has_file_data : Bool)
    (dedup_status : String) :
    ((complete_upload session has_file_data dedup_status).attempted_dedup = true →
      (10 * 1024 * 1024 < session.size ∧
        (session.strategy = "single" ∨ session.strategy = "chunked"))) ∧
    (¬ (10 * 1024 * 1024 < session.size ∧
        (session.strategy = "single" ∨ session.strategy = "chunked")) →
      complete_upload session has_file_data dedup_status =
        if session.strategy = "chunked" ∧ session.done.length ≠ session.chunks
        then ⟨false, none, "incomplete"⟩
        else ⟨false, some session.strategy, "success"⟩) := by
  constructor
  · intro hatt
    by_contra hgate
    have hg : dedup_gate session.size session.strategy = false :=
      Bool.eq_false_iff.2 (fun hb => hgate ((dedup_gate_iff _ _).1 hb))
    simp only [complete_upload, hg] at hatt
    split_ifs at hatt <;> simp_all
  · intro hgate
    have hg : dedup_gate session.size session.strategy = false :=
      Bool.eq_false_iff.2 (fun hb => hgate ((dedup_gate_iff _ _).1 hb))
    simp only [complete_upload, hg]
    split_ifs <;> simp_all

/-- Witness for `complete_upload_dedup_gate`: a completed 100-byte
inline session is stored by the normal path with storage type `inline`,
with no deduplication attempt. -/
theorem complete_upload_dedup_gate_witness :
    complete_upload Fixtures.s_inline true "stored_with_dedup" =
      ⟨false, some "inline", "success"⟩ := by
  have h := (complete_upload_dedup_gate Fixtures.s_inline true "stored_with_dedup").2
    (by decide)
  simpa using h

end UploadRouter

namespace QuotaAccounting

lemma sum_eraseP_find (l : List (Nat × Nat)) (fid : Nat) (f : Nat × Nat)
    (hf : l.find? (fun g => g.1 = fid) = some f) :
    ((l.eraseP (fun g => g.1 = fid)).map (fun g => g.2)).sum + f.2 =
      (l.map (fun g => g.2)).sum := by
  induction l with
  | nil => simp at hf
  | cons a t ih =>
    by_cases ha : a.1 = fid
    · have hfa : f = a := by
        rw [List.find?_cons_of_pos _ (by simpa using ha)] at hf
        exact (Option.some_injective _ hf).symm
      subst hfa
      rw [List.eraseP_cons_of_pos (by simpa using ha)]
      simp [Nat.add_comm]
    · rw [List.find?_cons_of_neg _ (by simpa using ha)] at hf
      rw [List.eraseP_cons_of_neg (by simpa using ha)]
      simp only [List.map_cons, List.sum_cons]
      have h2 := ih hf
      omega

/-- C2 (amended): the quota invariant `storage_used = sum of remaining
file sizes` is preserved by every non-deduplicated completion and every
deletion; a deduplicated completion instead adds `size - saved` to
`storage_used` while adding a row of the full `size`, so the invariant
breaks by `saved` whenever the pipeline saved anything. -/
theorem quota_accounting (st : UserFiles) (h : quota_inv st) :
    (∀ fid size, quota_inv (complete_upload_normal st fid size)) ∧
    (∀ fid, quota_inv (delete_file st fid)) ∧
    (∀ fid size saved,
      (complete_upload_dedup st fid size saved).storage_used =
        st.storage_used + (size : Int) - (saved : Int) ∧
      (((complete_upload_dedup st fid size saved).files.map (fun f => f.2)).sum =
        (st.files.map (fun f => f.2)).sum + size)) := by
  refine ⟨?_, ?_, ?_⟩
  · intro fid size
    have h2 := h
    unfold quota_inv at h2 ⊢
    unfold complete_upload_normal
    dsimp only
    simp only [List.map_append, List.sum_append, List.map_cons, List.sum_cons,
      List.map_nil, List.sum_nil]
    omega
  · intro fid
    unfold delete_file
    cases hf : st.files.find? (fun g => g.1 = fid) with
    | none => exact h
    | some f =>
      have hsum := sum_eraseP_find st.files fid f hf
      have h2 := h
      unfold quota_inv at h2 ⊢
      dsimp only
      omega
  · intro fid size saved
    unfold complete_upload_dedup
    dsimp only
    constructor
    · ring
    · simp only [List.map_append, List.sum_append, List.map_cons, List.sum_cons,
        List.map_nil, List.sum_nil]
      omega

/-- Witness for `quota_accounting`: starting from the empty account, a
normal 7-byte completion restores the invariant. -/
theorem quota_accounting_witness :
    quota_inv (complete_upload_normal ⟨0, []⟩ 5 7) :=
  (quota_accounting ⟨0, []⟩ (by decide)).1 5 7

/-- C2 counterexample: a deduplicated completion of an 11 MiB full
duplicate (saved = size) leaves `storage_used` at 0 while the user now
owns a row of 11534336 bytes, so `storage_used` no longer equals the sum
of file sizes; deleting that file then drags `storage_used` to
-11534336 instead of back to 0.  The claimed invariant is false for
deduplicated completions. -/
theorem quota_invariant_counterexample :
    quota_inv (⟨0, []⟩ : UserFiles) ∧
    ¬ quota_inv (complete_upload_dedup ⟨0, []⟩ 1 11534336 11534336) ∧
    (delete_file (complete_upload_dedup ⟨0, []⟩ 1 11534336 11534336) 1).storage_used =
      -(11534336 : Int) := by
  refine ⟨by decide, ?_, by decide⟩
  decide

end QuotaAccounting

namespace FilesRouter

/-- C7: a HEAD request is answered 200 with `Content-Length = file_size`
before any side effect, and a `Range: bytes=a-b` request with
`a ≥ file_size` or `a > b` is answered 416 with
`Content-Range: bytes */size`; on both paths the file table is unchanged
(no `last_accessed` update) and no activity record is emitted. -/
theorem range_416_head_no_side_effects (env : CryptoEnv) (disk : List (String × Bytes))
    (db : List FileObj) (u fid : String) (f : FileObj) (now a b : Nat)
    (hf : db.find? (fun g => g.id = fid && g.user_id = u) = some f) :
    (∀ rh, download_file env disk db u fid .head rh now =
      ⟨.ok ⟨200, none, some f.file_size, []⟩, db, []⟩) ∧
    (f.file_size ≤ a ∨ b < a →
      download_file env disk db u fid .get (.groups (some a) (some b)) now =
        ⟨.error ⟨416, "Range Not Satisfiable", some ("bytes */" ++ toString f.file_size)⟩,
          db, []⟩) := by
  constructor
  · intro rh
    unfold download_file
    rw [hf]
    simp
  · intro hcond
    unfold download_file
    rw [hf]
    have hp : parse_range_header (.groups (some a) (some b)) f.file_size =
        .error ⟨416, "Range Not Satisfiable", some ("bytes */" ++ toString f.file_size)⟩ := by
      unfold parse_range_header validate_range
      dsimp only
      rw [if_pos]
      rcases hcond with h | h
      · right; exact_mod_cast Nat.cast_le.2 h
      · left; exact_mod_cast Nat.cast_lt.2 h
    simp [hp]

/-- Witness for `range_416_head_no_side_effects` on the 10-byte file
`range_file`: HEAD is a pure 200, and `bytes=10-20` is 416 with
`Content-Range: bytes */10`, both without touching the row. -/
theorem range_416_head_witness :
    (download_file trivEnv [] [Fixtures.range_file] "u7" "f7" .head .noHeader 0 =
      ⟨.ok ⟨200, none, some 10, []⟩, [Fixtures.range_file], []⟩) ∧
    (download_file trivEnv [] [Fixtures.range_file] "u7" "f7" .get
        (.groups (some 10) (some 20)) 0 =
      ⟨.error ⟨416, "Range Not Satisfiable", some "bytes */10"⟩,
        [Fixtures.range_file], []⟩) := by
  have h := range_416_head_no_side_effects trivEnv [] [Fixtures.range_file]
    "u7" "f7" Fixtures.range_file 0 10 20 (by decide)
  exact ⟨h.1 .noHeader, h.2 (by decide)⟩

/-- C1 (code evaluated at the failing input): a file stored by the
deduplication pipeline has storage type `content_addressed` (or
`deduplicated_reference` for a full duplicate), and `download_file` has
no branch for either -- the request falls into the final `else` and is
answered 500 `Unknown storage type`, so no bytes of the plaintext are
returned. -/
theorem dedup_storage_type_download_500 :
    (download_file trivEnv [] [Fixtures.ca_file] "u1" "f1" .get .noHeader 0).response =
      .error ⟨500, "Unknown storage type", none⟩ ∧
    (download_file trivEnv [] [Fixtures.dr_file] "u1" "f2" .get .noHeader 0).response =
      .error ⟨500, "Unknown storage type", none⟩ := by
  constructor <;> decide

end FilesRouter

namespace EnhancedDeduplicationService

/-! Convergent-encryption determinism (C5). -/

lemma classify_blocks_from_hash (env : CryptoEnv) (db : DedupDB) (user_id : String)
    (data : Bytes) (start : Nat) (l : List Nat) :
    ∀ x ∈ classify_blocks_from env db user_id data start l,
      x.1.hash = calculate_block_hash env x.2 := by
  induction l generalizing start with
  | nil => intro x hx; simp [classify_blocks_from] at hx
  | cons b bs ih =>
    intro x hx
    simp only [classify_blocks_from, List.mem_cons] at hx
    rcases hx with rfl | hx
    · rfl
    · exact ih b x hx

lemma cas_writes_shape (env : CryptoEnv) (db : DedupDB) (u : String) (data : Bytes)
    (b : Bytes) (p : String) (w : Bytes)
    (h : (b, p, w) ∈ cas_writes env db u data true) :
    p = get_content_address (calculate_block_hash env b) ∧
    w = encrypted_block_bytes env b := by
  unfold cas_writes at h
  by_cases hfd : full_duplicate_exists env db u data = true
  · rw [if_pos hfd] at h
    simp at h
  · rw [if_neg hfd] at h
    rw [List.mem_filterMap] at h
    obtain ⟨bi, hbi, hf⟩ := h
    by_cases hd : bi.1.is_duplicate = true
    · rw [if_pos hd] at hf
      simp at hf
    · rw [if_neg hd] at hf
      dsimp only at hf
      by_cases hex : (assoc_get db.cas (get_content_address bi.1.hash)).isSome = true
      · rw [if_pos hex] at hf
        simp at hf
      · rw [if_neg hex] at hf
        rw [Option.some_inj, Prod.mk.injEq, Prod.mk.injEq] at hf
        obtain ⟨hb2, hp2, hw2⟩ := hf
        have hh := classify_blocks_from_hash env db u data 0
          (find_chunk_boundaries data) bi hbi
        subst hb2
        rw [hh] at hp2
        rw [if_pos rfl] at hw2
        exact ⟨hp2.symm, hw2.symm⟩

/-- C5: the deduplication store is convergent.  Whenever two runs (any
users, any database states, any carrier files) write a CAS file for the
same plaintext block `b` with encryption enabled, they write it at the
same content path with byte-identical contents, and those bytes are
`nonce || gcm_tag || ciphertext` where the key is
PBKDF2-HMAC-SHA256(SHA-256(b), salt "dedup_convergent_encryption_salt",
100000 iterations, 32 bytes) and the nonce is the first 12 bytes of
SHA-256 of the hex hash concatenated with "_nonce". -/
theorem convergent_cas_determinism (env : CryptoEnv) (db1 db2 : DedupDB)
    (u1 u2 : String) (data1 data2 : Bytes) (b : Bytes) (p1 p2 : String)
    (w1 w2 : Bytes)
    (h1 : (b, p1, w1) ∈ cas_writes env db1 u1 data1 true)
    (h2 : (b, p2, w2) ∈ cas_writes env db2 u2 data2 true) :
    p1 = p2 ∧ w1 = w2 ∧
    w1 = block_nonce env (calculate_block_hash env b) ++
      (env.aes_gcm_encrypt
        (env.pbkdf2_hmac_sha256 (env.sha256 b) convergent_salt 100000 32)
        (block_nonce env (calculate_block_hash env b)) b).2 ++
      (env.aes_gcm_encrypt
        (env.pbkdf2_hmac_sha256 (env.sha256 b) convergent_salt 100000 32)
        (block_nonce env (calculate_block_hash env b)) b).1 := by
  obtain ⟨hp1, hw1⟩ := cas_writes_shape env db1 u1 data1 b p1 w1 h1
  obtain ⟨hp2, hw2⟩ := cas_writes_shape env db2 u2 data2 b p2 w2 h2
  refine ⟨hp1.trans hp2.symm, hw1.trans hw2.symm, ?_⟩
  rw [hw1]
  simp [encrypted_block_bytes, derive_key_from_content, List.append_assoc]

/-- Witness for `convergent_cas_determinism`: two users `alice` and
`bob` storing the 3-byte file `[1, 2, 3]` against empty databases write
the same path and bytes, matching the convergent formula. -/
theorem convergent_cas_determinism_witness :
    ("/app/storage/cas/01/010203" : String) = "/app/storage/cas/01/010203" ∧
    ([48, 49, 48, 50, 48, 51, 95, 110, 111, 110, 99, 101, 1, 2, 3] : Bytes) =
      [48, 49, 48, 50, 48, 51, 95, 110, 111, 110, 99, 101, 1, 2, 3] ∧
    ([48, 49, 48, 50, 48, 51, 95, 110, 111, 110, 99, 101, 1, 2, 3] : Bytes) =
      block_nonce trivEnv (calculate_block_hash trivEnv [1, 2, 3]) ++
      (trivEnv.aes_gcm_encrypt
        (trivEnv.pbkdf2_hmac_sha256 (trivEnv.sha256 [1, 2, 3]) convergent_salt 100000 32)
        (block_nonce trivEnv (calculate_block_hash trivEnv [1, 2, 3])) [1, 2, 3]).2 ++
      (trivEnv.aes_gcm_encrypt
        (trivEnv.pbkdf2_hmac_sha256 (trivEnv.sha256 [1, 2, 3]) convergent_salt 100000 32)
        (block_nonce trivEnv (calculate_block_hash trivEnv [1, 2, 3])) [1, 2, 3]).1 :=
  convergent_cas_determinism trivEnv ⟨[], [], []⟩ ⟨[], [], []⟩ "alice" "bob"
    [1, 2, 3] [1, 2, 3] [1, 2, 3]
    "/app/storage/cas/01/010203" "/app/storage/cas/01/010203"
    [48, 49, 48, 50, 48, 51, 95, 110, 111, 110, 99, 101, 1, 2, 3]
    [48, 49, 48, 50, 48, 51, 95, 110, 111, 110, 99, 101, 1, 2, 3]
    (by decide) (by decide)

/-! Garbage-collector correctness (C8). -/

lemma assoc_get_filter_ne {α : Type} (l : List (String × α)) (h h2 : String)
    (hne : h2 ≠ h) :
    assoc_get (l.filter (fun c => c.1 ≠ h)) h2 = assoc_get l h2 := by
  induction l with
  | nil => rfl
  | cons p t ih =>
    obtain ⟨pk, pv⟩ := p
    by_cases hp : pk = h
    · rw [List.filter_cons_of_neg (by simpa using hp)]
      rw [ih]
      have hne2 : ¬ (pk = h2) := fun he => hne (he.symm.trans hp)
      simp only [assoc_get, if_neg hne2]
    · rw [List.filter_cons_of_pos (by simpa using hp)]
      simp only [assoc_get, ih]

lemma find?_id_of_mem (l : List ContentBlock) (r : ContentBlock)
    (hmem : r ∈ l) (huniq : ∀ x ∈ l, x.id = r.id → x = r) :
    l.find? (fun b => b.id = r.id) = some r := by
  induction l with
  | nil => cases hmem
  | cons a t ih =>
    by_cases ha : a.id = r.id
    · have haeq : a = r := huniq a (List.mem_cons_self a t) ha
      subst haeq
      exact List.find?_cons_of_pos _ (by simp)
    · rw [List.find?_cons_of_neg _ (by simpa using ha)]
      rcases List.mem_cons.1 hmem with rfl | hm
      · exact absurd rfl ha
      · exact ih hm (fun x hx => huniq x (List.mem_cons_of_mem a hx))

lemma filterMap_gc_apply_nil (files : List GCFileRow) (rows : List ContentBlock) :
    rows.filterMap (gc_apply files []) = rows := by
  induction rows with
  | nil => rfl
  | cons r rs ih =>
    rw [List.filterMap_cons, show gc_apply files [] r = some r from rfl, ih]

lemma filterMap_gc_del (files : List GCFileRow) (b : ContentBlock)
    (t : List ContentBlock) (rows : List ContentBlock)
    (hb : count_file_refs files b.block_hash = 0) :
    (rows.filter (fun r => r.id ≠ b.id)).filterMap (gc_apply files t) =
      rows.filterMap (gc_apply files (b :: t)) := by
  induction rows with
  | nil => rfl
  | cons r rs ih =>
    by_cases hr : r.id = b.id
    · rw [List.filter_cons_of_neg (by simpa using hr)]
      have hf : gc_apply files (b :: t) r = none := by
        unfold gc_apply
        rw [List.find?_cons_of_pos _ (by simpa using hr.symm)]
        dsimp only
        rw [if_pos hb]
      rw [List.filterMap_cons, hf, ih]
    · rw [List.filter_cons_of_pos (by simpa using hr)]
      have hf : gc_apply files (b :: t) r = gc_apply files t r := by
        unfold gc_apply
        rw [List.find?_cons_of_neg _ (by simpa using fun he => hr he.symm)]
      rw [List.filterMap_cons, List.filterMap_cons, hf, ih]

lemma filterMap_gc_upd (files : List GCFileRow) (b : ContentBlock)
    (t : List ContentBlock) (rows : List ContentBlock)
    (hb : ¬ count_file_refs files b.block_hash = 0)
    (hbt : b.id ∉ t.map (fun x => x.id)) :
    (rows.map (fun r => if r.id = b.id then
        { r with reference_count := (count_file_refs files b.block_hash : Int) }
      else r)).filterMap (gc_apply files t) =
      rows.filterMap (gc_apply files (b :: t)) := by
  induction rows with
  | nil => rfl
  | cons r rs ih =>
    rw [List.map_cons, List.filterMap_cons, List.filterMap_cons]
    by_cases hr : r.id = b.id
    · rw [if_pos hr]
      have h1 : gc_apply files t
          { r with reference_count := (count_file_refs files b.block_hash : Int) } =
          some { r with reference_count := (count_file_refs files b.block_hash : Int) } := by
        unfold gc_apply
        rw [List.find?_eq_none.2]
        intro x hx
        simp only [decide_eq_true_eq]
        intro hxe
        have hxid : x.id = b.id := Eq.trans hxe hr
        exact hbt (hxid ▸ List.mem_map_of_mem (fun y => y.id) hx)
      have h2 : gc_apply files (b :: t) r =
          some { r with reference_count := (count_file_refs files b.block_hash : Int) } := by
        unfold gc_apply
        rw [List.find?_cons_of_pos _ (by simpa using hr.symm)]
        dsimp only
        rw [if_neg hb]
      rw [h1, h2, ih]
    · rw [if_neg hr]
      have hf : gc_apply files (b :: t) r = gc_apply files t r := by
        unfold gc_apply
        rw [List.find?_cons_of_neg _ (by simpa using fun he => hr he.symm)]
      rw [hf, ih]

lemma filter_not_any_del {α : Type} (key : α → String) (files : List GCFileRow)
    (b : ContentBlock) (t : List ContentBlock) (l : List α)
    (hb : count_file_refs files b.block_hash = 0) :
    (l.filter (fun c => key c ≠ b.block_hash)).filter (fun c =>
        !(t.any (fun x => decide (count_file_refs files x.block_hash = 0) &&
          decide (x.block_hash = key c)))) =
      l.filter (fun c =>
        !((b :: t).any (fun x => decide (count_file_refs files x.block_hash = 0) &&
          decide (x.block_hash = key c)))) := by
  rw [List.filter_filter]
  apply List.filter_congr
  intro c _
  by_cases hkc : key c = b.block_hash
  · simp [List.any_cons, hb, hkc]
  · have hck : ¬ (b.block_hash = key c) := fun he => hkc he.symm
    simp [List.any_cons, hb, hkc, hck]

lemma filter_not_any_keep {α : Type} (key : α → String) (files : List GCFileRow)
    (b : ContentBlock) (t : List ContentBlock) (l : List α)
    (hb : ¬ count_file_refs files b.block_hash = 0) :
    l.filter (fun c =>
        !(t.any (fun x => decide (count_file_refs files x.block_hash = 0) &&
          decide (x.block_hash = key c)))) =
      l.filter (fun c =>
        !((b :: t).any (fun x => decide (count_file_refs files x.block_hash = 0) &&
          decide (x.block_hash = key c)))) := by
  apply List.filter_congr
  intro c _
  simp [List.any_cons, hb]

lemma assoc_get_none_keys {α : Type} (l : List (String × α)) (k : String)
    (h : assoc_get l k = none) : ∀ p ∈ l, p.1 ≠ k := by
  induction l with
  | nil => intro p hp; cases hp
  | cons q t ih =>
    obtain ⟨qk, qv⟩ := q
    intro p hp
    by_cases hq : qk = k
    · simp only [assoc_get, if_pos hq] at h
      exact absurd h (by simp)
    · simp only [assoc_get, if_neg hq] at h
      rcases List.mem_cons.1 hp with rfl | hp2
      · exact hq
      · exact ih h p hp2

lemma any_key_cas_filter (files : List GCFileRow) (t : List ContentBlock)
    (cas : List (String × Nat)) (b : ContentBlock) (k : String) :
    b.block_hash ∉ t.map (fun x => x.block_hash) →
    (t.any (fun x => decide (count_file_refs files x.block_hash = 0) &&
      (decide (x.block_hash = k) &&
        (assoc_get (cas.filter (fun c => c.1 ≠ b.block_hash)) x.block_hash).isSome))) =
    (t.any (fun x => decide (count_file_refs files x.block_hash = 0) &&
      (decide (x.block_hash = k) && (assoc_get cas x.block_hash).isSome))) := by
  induction t with
  | nil => intro _; rfl
  | cons y ys ih =>
    intro hbt
    simp only [List.map_cons, List.mem_cons, not_or] at hbt
    rw [List.any_cons, List.any_cons, ih hbt.2,
      assoc_get_filter_ne cas b.block_hash y.block_hash (fun he => hbt.1 he.symm)]

lemma filter_key_del (files : List GCFileRow) (b : ContentBlock)
    (t : List ContentBlock) (cas : List (String × Nat)) (l : List String)
    (hb : count_file_refs files b.block_hash = 0)
    (hcas : (assoc_get cas b.block_hash).isSome = true) :
    (l.filter (fun k => k ≠ b.block_hash)).filter (fun k =>
        !(t.any (fun x => decide (count_file_refs files x.block_hash = 0) &&
          (decide (x.block_hash = k) && (assoc_get cas x.block_hash).isSome)))) =
      l.filter (fun k =>
        !((b :: t).any (fun x => decide (count_file_refs files x.block_hash = 0) &&
          (decide (x.block_hash = k) && (assoc_get cas x.block_hash).isSome)))) := by
  rw [List.filter_filter]
  apply List.filter_congr
  intro k _
  by_cases hkb : k = b.block_hash
  · simp [List.any_cons, hb, hkb, hcas]
  · have hbk : ¬ (b.block_hash = k) := fun he => hkb he.symm
    simp [List.any_cons, hb, hkb, hbk, hcas]

lemma filter_key_absent (files : List GCFileRow) (b : ContentBlock)
    (t : List ContentBlock) (cas : List (String × Nat)) (l : List String)
    (hcas : assoc_get cas b.block_hash = none) :
    l.filter (fun k =>
        !(t.any (fun x => decide (count_file_refs files x.block_hash = 0) &&
          (decide (x.block_hash = k) && (assoc_get cas x.block_hash).isSome)))) =
      l.filter (fun k =>
        !((b :: t).any (fun x => decide (count_file_refs files x.block_hash = 0) &&
          (decide (x.block_hash = k) && (assoc_get cas x.block_hash).isSome)))) := by
  apply List.filter_congr
  intro k _
  simp [List.any_cons, hcas]

lemma filter_cas_absent (files : List GCFileRow) (b : ContentBlock)
    (t : List ContentBlock) (cas : List (String × Nat))
    (hcas : assoc_get cas b.block_hash = none) :
    cas.filter (fun c =>
        !(t.any (fun x => decide (count_file_refs files x.block_hash = 0) &&
          decide (x.block_hash = c.1)))) =
      cas.filter (fun c =>
        !((b :: t).any (fun x => decide (count_file_refs files x.block_hash = 0) &&
          decide (x.block_hash = c.1)))) := by
  apply List.filter_congr
  intro c hc
  have hcb : c.1 ≠ b.block_hash := assoc_get_none_keys cas b.block_hash hcas c hc
  have hbc : ¬ (b.block_hash = c.1) := fun he => hcb he.symm
  simp [List.any_cons, hbc]

lemma filter_key_keep (files : List GCFileRow) (b : ContentBlock)
    (t : List ContentBlock) (cas : List (String × Nat)) (l : List String)
    (hb : ¬ count_file_refs files b.block_hash = 0) :
    l.filter (fun k =>
        !(t.any (fun x => decide (count_file_refs files x.block_hash = 0) &&
          (decide (x.block_hash = k) && (assoc_get cas x.block_hash).isSome)))) =
      l.filter (fun k =>
        !((b :: t).any (fun x => decide (count_file_refs files x.block_hash = 0) &&
          (decide (x.block_hash = k) && (assoc_get cas x.block_hash).isSome)))) := by
  apply List.filter_congr
  intro k _
  simp [List.any_cons, hb]

lemma gc_fold_spec (files : List GCFileRow) (l : List ContentBlock) :
    ∀ (acc : GCAcc),
    (l.map (fun b => b.id)).Nodup →
    (l.map (fun b => b.block_hash)).Nodup →
    l.foldl (gc_step files) acc =
      { blocks := acc.blocks.filterMap (gc_apply files l)
        cas := acc.cas.filter (fun c =>
          !(l.any (fun x => decide (count_file_refs files x.block_hash = 0) &&
            decide (x.block_hash = c.1))))
        key_files := acc.key_files.filter (fun k =>
          !(l.any (fun x => decide (count_file_refs files x.block_hash = 0) &&
            (decide (x.block_hash = k) && (assoc_get acc.cas x.block_hash).isSome))))
        deleted_count := acc.deleted_count +
          (l.filter (fun b => count_file_refs files b.block_hash = 0)).length
        freed_space := acc.freed_space +
          ((l.filter (fun b => count_file_refs files b.block_hash = 0)).map
            (fun b => (assoc_get acc.cas b.block_hash).getD 0)).sum } := by
  induction l with
  | nil =>
    intro acc _ _
    simp only [List.foldl_nil, filterMap_gc_apply_nil, List.any_nil,
      Bool.not_false, List.filter_nil, List.length_nil, Nat.add_zero,
      List.map_nil, List.sum_nil, List.filter_true]
  | cons b t ih =>
    intro acc hids hhash
    have hids_t : (t.map (fun x => x.id)).Nodup := (List.nodup_cons.1 hids).2
    have hhash_t : (t.map (fun x => x.block_hash)).Nodup := (List.nodup_cons.1 hhash).2
    have hbid : b.id ∉ t.map (fun x => x.id) := (List.nodup_cons.1 hids).1
    have hbhash : b.block_hash ∉ t.map (fun x => x.block_hash) :=
      (List.nodup_cons.1 hhash).1
    rw [List.foldl_cons, ih (gc_step files acc b) hids_t hhash_t]
    unfold gc_step
    by_cases hb : count_file_refs files b.block_hash = 0
    · rw [if_pos hb]
      cases hcas : assoc_get acc.cas b.block_hash with
      | some sz =>
        dsimp only
        simp only [GCAcc.mk.injEq]
        refine ⟨?_, ?_, ?_, ?_, ?_⟩
        · exact filterMap_gc_del files b t acc.blocks hb
        · exact filter_not_any_del (fun c => c.1) files b t acc.cas hb
        · have hfun : (fun k =>
              !(t.any (fun x => decide (count_file_refs files x.block_hash = 0) &&
                (decide (x.block_hash = k) &&
                  (assoc_get (acc.cas.filter (fun c => c.1 ≠ b.block_hash))
                    x.block_hash).isSome)))) =
              (fun k =>
              !(t.any (fun x => decide (count_file_refs files x.block_hash = 0) &&
                (decide (x.block_hash = k) &&
                  (assoc_get acc.cas x.block_hash).isSome)))) :=
            funext fun k => by rw [any_key_cas_filter files t acc.cas b k hbhash]
          rw [hfun]
          exact filter_key_del files b t acc.cas acc.key_files hb (by rw [hcas]; rfl)
        · rw [List.filter_cons_of_pos (by simpa using hb), List.length_cons]
          omega
        · rw [List.filter_cons_of_pos (by simpa using hb), List.map_cons,
            List.sum_cons]
          have hmap : (t.filter (fun x => count_file_refs files x.block_hash = 0)).map
              (fun x => (assoc_get (acc.cas.filter (fun c => c.1 ≠ b.block_hash))
                x.block_hash).getD 0) =
              (t.filter (fun x => count_file_refs files x.block_hash = 0)).map
                (fun x => (assoc_get acc.cas x.block_hash).getD 0) := by
            apply List.map_congr_left
            intro x hx
            have hxt : x ∈ t := List.mem_of_mem_filter hx
            have hxh : x.block_hash ≠ b.block_hash := by
              intro he
              exact hbhash (he ▸ List.mem_map_of_mem (fun y => y.block_hash) hxt)
            rw [assoc_get_filter_ne _ _ _ hxh]
          rw [hmap, hcas]
          simp only [Option.getD_some]
          omega
      | none =>
        dsimp only
        simp only [GCAcc.mk.injEq]
        refine ⟨?_, ?_, ?_, ?_, ?_⟩
        · exact filterMap_gc_del files b t acc.blocks hb
        · exact filter_cas_absent files b t acc.cas hcas
        · exact filter_key_absent files b t acc.cas acc.key_files hcas
        · rw [List.filter_cons_of_pos (by simpa using hb), List.length_cons]
          omega
        · rw [List.filter_cons_of_pos (by simpa using hb), List.map_cons,
            List.sum_cons, hcas]
          simp only [Option.getD_none]
          omega
    · rw [if_neg hb]
      dsimp only
      simp only [GCAcc.mk.injEq]
      refine ⟨?_, ?_, ?_, ?_, ?_⟩
      · exact filterMap_gc_upd files b t acc.blocks hb hbid
      · exact filter_not_any_keep (fun c => c.1) files b t acc.cas hb
      · exact filter_key_keep files b t acc.cas acc.key_files hb
      · rw [List.filter_cons_of_neg (by simpa using hb)]
      · rw [List.filter_cons_of_neg (by simpa using hb)]

/-- C8: a garbage-collection pass deletes a `ContentBlock` row and its
CAS file exactly for the blocks whose `reference_count` is at most 0 and
whose hash the manifest rescan finds in no file
(`gc_row_outcome`/`gc_deletes_hash`); the sidecar key file of such a
block is deleted together with its CAS file, i.e. exactly when the CAS
file was present (`gc_deletes_key`; the source nests the sidecar
removal inside the CAS-file existence check, so an orphan key whose CAS
file is missing is kept); unreferenced rows that the rescan still finds
referenced are repaired to the rescan count and kept; rows with
positive counts are untouched.  The returned summary carries the number
of deleted rows, the bytes freed (the on-disk sizes of the CAS entries
removed) and an (empty) error list. -/
theorem garbage_collect_spec (st : GCState)
    (hids : (st.blocks.map (fun b => b.id)).Nodup)
    (hhashes : (st.blocks.map (fun b => b.block_hash)).Nodup) :
    (garbage_collect st).1.blocks = st.blocks.filterMap (gc_row_outcome st.files) ∧
    (garbage_collect st).1.cas =
      st.cas.filter (fun c => !(gc_deletes_hash st.files st.blocks c.1)) ∧
    (garbage_collect st).1.key_files =
      st.key_files.filter (fun k => !(gc_deletes_key st.files st.blocks st.cas k)) ∧
    (garbage_collect st).2.deleted_blocks =
      (st.blocks.filter (fun b => decide (b.reference_count ≤ 0) &&
        decide (count_file_refs st.files b.block_hash = 0))).length ∧
    (garbage_collect st).2.freed_space =
      ((st.blocks.filter (fun b => decide (b.reference_count ≤ 0) &&
        decide (count_file_refs st.files b.block_hash = 0))).map
        (fun b => (assoc_get st.cas b.block_hash).getD 0)).sum ∧
    (garbage_collect st).2.errors = [] := by
  have hsub : (st.blocks.filter (fun b => b.reference_count ≤ 0)).Sublist st.blocks :=
    List.filter_sublist _
  have hl_ids : ((st.blocks.filter (fun b => b.reference_count ≤ 0)).map
      (fun b => b.id)).Nodup :=
    List.Nodup.sublist (hsub.map (fun b => b.id)) hids
  have hl_hash : ((st.blocks.filter (fun b => b.reference_count ≤ 0)).map
      (fun b => b.block_hash)).Nodup :=
    List.Nodup.sublist (hsub.map (fun b => b.block_hash)) hhashes
  have hinj : ∀ x ∈ st.blocks, ∀ y ∈ st.blocks, x.id = y.id → x = y :=
    fun x hx y hy hxy => List.inj_on_of_nodup_map hids hx hy hxy
  unfold garbage_collect
  dsimp only
  rw [gc_fold_spec st.files (st.blocks.filter (fun b => b.reference_count ≤ 0))
    ⟨st.blocks, st.cas, st.key_files, 0, 0⟩ hl_ids hl_hash]
  dsimp only
  refine ⟨?_, ?_, ?_, ?_, ?_, rfl⟩
  · apply List.filterMap_congr
    intro r hr
    by_cases hrc : r.reference_count ≤ 0
    · have hrl : r ∈ st.blocks.filter (fun b => b.reference_count ≤ 0) :=
        List.mem_filter.2 ⟨hr, by simpa using hrc⟩
      have hfind : (st.blocks.filter (fun b => b.reference_count ≤ 0)).find?
          (fun b => b.id = r.id) = some r := by
        apply find?_id_of_mem _ _ hrl
        intro x hx hxe
        exact hinj x (List.mem_of_mem_filter hx) r hr hxe
      unfold gc_apply gc_row_outcome
      rw [hfind]
      dsimp only
      rw [if_pos hrc]
    · have hfind : (st.blocks.filter (fun b => b.reference_count ≤ 0)).find?
          (fun b => b.id = r.id) = none := by
        rw [List.find?_eq_none]
        intro x hx
        simp only [decide_eq_true_eq]
        intro hxe
        have hxb : x ∈ st.blocks := List.mem_of_mem_filter hx
        have hxr : x = r := hinj x hxb r hr hxe
        have hxc : x.reference_count ≤ 0 := by
          have := List.mem_filter.1 hx
          simpa using this.2
        exact hrc (hxr ▸ hxc)
      unfold gc_apply gc_row_outcome
      rw [hfind]
      dsimp only
      rw [if_neg hrc]
  · apply List.filter_congr
    intro c _
    unfold gc_deletes_hash
    rw [List.any_filter]
    simp only [Bool.and_assoc]
  · apply List.filter_congr
    intro k _
    unfold gc_deletes_key
    rw [List.any_filter]
  · rw [List.filter_filter, Nat.zero_add]
    congr 1
    apply List.filter_congr
    intro b _
    exact Bool.and_comm _ _
  · rw [List.filter_filter, Nat.zero_add]
    congr 2
    apply List.filter_congr
    intro b _
    exact Bool.and_comm _ _

/-- Witness for `garbage_collect_spec` on the concrete state `gc_state`:
two rows deleted, 4 bytes freed (only block `aa` had a CAS file), no
errors, and the key files left are `cc` (live block) and the orphan
`dd`, whose CAS file was missing. -/
theorem garbage_collect_spec_witness :
    (garbage_collect Fixtures.gc_state).2.deleted_blocks = 2 ∧
    (garbage_collect Fixtures.gc_state).2.freed_space = 4 ∧
    (garbage_collect Fixtures.gc_state).2.errors = [] ∧
    (garbage_collect Fixtures.gc_state).1.key_files = ["cc", "dd"] := by
  have h := garbage_collect_spec Fixtures.gc_state (by decide) (by decide)
  refine ⟨?_, ?_, h.2.2.2.2.2, ?_⟩
  · rw [h.2.2.2.1]; decide
  · rw [h.2.2.2.2.1]; decide
  · rw [h.2.2.1]; decide

end EnhancedDeduplicationService
